import Mathlib

/-!
# Verification of the PDF Slicer edit engine and save coordinator

Shallow embedding of the pdfslicer sources (`src/application/appwindow.cpp`,
`src/application/settingsmanager.cpp`) together with a model of the document
edit engine (Page / Command / CommandHistory / Document / PdfSaver), which is
not among the given sources and is therefore modelled from the specification.

All definitions are executable; machine integers that the C++ code stores as
`int` are modelled as `Int`, collection indices as `Nat`.
-/

namespace Slicer

/-! ## Pages

Modelled from the spec: a Page has a stable identity (index into the original
source document), a cumulative rotation in degrees (0/90/180/270), and a
`removed` flag ("logically excluded but retained for reversibility"). -/

structure Page where
  sourceIndex : Nat
  rotation : Nat
  removed : Bool
deriving DecidableEq, Repr

/-- Modelled from the spec: `rotate(direction)` adds +90 degrees mod 360. -/
def rotateRightPage (p : Page) : Page :=
  { p with rotation := (p.rotation + 90) % 360 }

/-- Modelled from the spec: `rotate(direction)` adds -90 degrees mod 360. -/
def rotateLeftPage (p : Page) : Page :=
  { p with rotation := (p.rotation + 270) % 360 }

/-- Modelled from the spec: `markRemoved()` sets the removed flag. -/
def markRemoved (p : Page) : Page :=
  { p with removed := true }

/-- Modelled from the spec: `markRestored()` clears the removed flag. -/
def markRestored (p : Page) : Page :=
  { p with removed := false }

/-- The Page invariant of the visible sequence: rotation is one of the
cumulative 0/90/180/270 states (in particular `< 360`) and the page is not
flagged removed while it sits in the visible sequence. -/
def PagesOK (l : List Page) : Prop :=
  ∀ p ∈ l, p.rotation < 360 ∧ p.removed = false

instance (l : List Page) : Decidable (PagesOK l) :=
  List.decidableBAll _ l

/-! ## Removal and rotation over the visible sequence

Modelled from the spec, §4.2: RemovePages removes the pages at the given
positions of the *current* visible sequence, preserving the relative order of
survivors, and records each removed page together with its original absolute
position; `reverse` reinserts the removed pages from lowest recorded position
to highest.  The position predicate is shifted by one at each step of the
recursion so recorded positions are absolute. -/

def survivors : (Nat → Bool) → List Page → List Page
  | _, [] => []
  | s, p :: t =>
    if s 0 then survivors (fun i => s (i + 1)) t
    else p :: survivors (fun i => s (i + 1)) t

def captured : (Nat → Bool) → List Page → List (Nat × Page)
  | _, [] => []
  | s, p :: t =>
    let rest := (captured (fun i => s (i + 1)) t).map (fun ip => (ip.1 + 1, ip.2))
    if s 0 then (0, p) :: rest else rest

/-- Reinsert recorded pages at their recorded absolute positions, lowest
position first. -/
def reinsert (saved : List (Nat × Page)) (l : List Page) : List Page :=
  saved.foldl (fun acc ip => acc.insertIdx ip.1 ip.2) l

/-- Apply a page transformation to exactly the targeted positions of the
visible sequence. -/
def rotateSel (f : Page → Page) : (Nat → Bool) → List Page → List Page
  | _, [] => []
  | s, p :: t => (if s 0 then f p else p) :: rotateSel f (fun i => s (i + 1)) t

/-- The contiguous index range `[first, last]` (C++ `int` bounds) as a list of
positions; empty when `last < first` (spec: "`end < start` is a no-op"). -/
def rangeList (first last : Int) : List Nat :=
  if last < first then []
  else (List.range (last - first + 1).toNat).map (fun k => k + first.toNat)

/-! ## Commands

Modelled from the spec, §4.2: a polymorphic reversible edit operation with
variants RemovePages, RemovePageRange, RotatePagesRight, RotatePagesLeft,
constructed with the target page indices (positions in the current visible
sequence). -/

inductive Op where
  | removePages (indices : List Nat)
  | removePageRange (first last : Int)
  | rotatePagesRight (indices : List Nat)
  | rotatePagesLeft (indices : List Nat)
deriving DecidableEq, Repr

/-- The membership test for the positions an operation targets. -/
def Op.targets : Op → Nat → Bool
  | .removePages idxs => fun i => idxs.contains i
  | .removePageRange a b => fun i => (rangeList a b).contains i
  | .rotatePagesRight idxs => fun i => idxs.contains i
  | .rotatePagesLeft idxs => fun i => idxs.contains i

/-- `apply()` of a Command: the new visible sequence together with the state
recorded for exact reversal (for removals, the removed pages — marked
removed — and their original absolute positions; rotations need no record). -/
def applyOp (op : Op) (pages : List Page) : List Page × List (Nat × Page) :=
  match op with
  | .removePages _ | .removePageRange _ _ =>
    (survivors op.targets pages,
     (captured op.targets pages).map (fun ip => (ip.1, markRemoved ip.2)))
  | .rotatePagesRight _ => (rotateSel rotateRightPage op.targets pages, [])
  | .rotatePagesLeft _ => (rotateSel rotateLeftPage op.targets pages, [])

/-- `reverse()` of a Command: reinsert recorded pages (restored) from lowest
position to highest, or apply the opposite rotation. -/
def reverseOp (op : Op) (saved : List (Nat × Page)) (pages : List Page) : List Page :=
  match op with
  | .removePages _ | .removePageRange _ _ =>
    reinsert (saved.map (fun ip => (ip.1, markRestored ip.2))) pages
  | .rotatePagesRight _ => rotateSel rotateLeftPage op.targets pages
  | .rotatePagesLeft _ => rotateSel rotateRightPage op.targets pages

/-! ## CommandHistory and Document

Modelled from the spec, §4.3–4.4: an applied stack and an undone stack;
`execute` applies and clears the undone stack; `undo`/`redo` fail with
`NoHistoryError` (modelled as `Option.none`) on an empty stack. -/

structure ExecCmd where
  op : Op
  saved : List (Nat × Page)
deriving DecidableEq, Repr

structure CommandHistory where
  applied : List ExecCmd
  undone : List ExecCmd
deriving DecidableEq, Repr

def CommandHistory.canUndo (h : CommandHistory) : Bool := !h.applied.isEmpty

def CommandHistory.canRedo (h : CommandHistory) : Bool := !h.undone.isEmpty

structure Document where
  pages : List Page
  history : CommandHistory
deriving DecidableEq, Repr

def Document.canUndo (doc : Document) : Bool := doc.history.canUndo

def Document.canRedo (doc : Document) : Bool := doc.history.canRedo

/-- `CommandHistory::execute` through the owning Document: apply the command,
push it on the applied stack and clear the undone stack. -/
def Document.executeOp (doc : Document) (op : Op) : Document :=
  let r := applyOp op doc.pages
  { pages := r.1
    history := { applied := ⟨op, r.2⟩ :: doc.history.applied, undone := [] } }

/-- `Document::removePages`: no-op when the index set is empty (spec §4.4),
otherwise construct and execute a RemovePages command. -/
def Document.removePages (doc : Document) (idxs : List Nat) : Document :=
  if idxs.isEmpty then doc else doc.executeOp (.removePages idxs)

/-- `Document::removePageRange`: no-op when `last < first`, otherwise
construct and execute a RemovePageRange command. -/
def Document.removePageRange (doc : Document) (first last : Int) : Document :=
  if last < first then doc else doc.executeOp (.removePageRange first last)

def Document.rotatePagesRight (doc : Document) (idxs : List Nat) : Document :=
  if idxs.isEmpty then doc else doc.executeOp (.rotatePagesRight idxs)

def Document.rotatePagesLeft (doc : Document) (idxs : List Nat) : Document :=
  if idxs.isEmpty then doc else doc.executeOp (.rotatePagesLeft idxs)

/-- `Document::undoCommand`: `none` models `NoHistoryError`. -/
def Document.undoCommand (doc : Document) : Option Document :=
  match doc.history.applied with
  | [] => none
  | c :: rest =>
    some { pages := reverseOp c.op c.saved doc.pages
           history := { applied := rest, undone := c :: doc.history.undone } }

/-- `Document::redoCommand`: `none` models `NoHistoryError`. -/
def Document.redoCommand (doc : Document) : Option Document :=
  match doc.history.undone with
  | [] => none
  | c :: rest =>
    let r := applyOp c.op doc.pages
    some { pages := r.1
           history := { applied := ⟨c.op, r.2⟩ :: doc.history.applied, undone := rest } }

/-- One undo step; on an empty history the document is left unchanged (the
caller is expected to consult `canUndo` first). -/
def undoStep (doc : Document) : Document :=
  (doc.undoCommand).getD doc

def undoN : Nat → Document → Document
  | 0, d => d
  | n + 1, d => undoN n (undoStep d)

/-- Call `undo()` repeatedly until `canUndo()` is false. -/
def undoAll (doc : Document) : Document :=
  undoN doc.history.applied.length doc

/-! ## Edit requests

The Document edit operations reachable from the UI layer, as data. -/

inductive EditRequest where
  | removePages (idxs : List Nat)
  | removePageRange (first last : Int)
  | rotateRight (idxs : List Nat)
  | rotateLeft (idxs : List Nat)
deriving DecidableEq, Repr

def applyEdit (r : EditRequest) (doc : Document) : Document :=
  match r with
  | .removePages idxs => doc.removePages idxs
  | .removePageRange a b => doc.removePageRange a b
  | .rotateRight idxs => doc.rotatePagesRight idxs
  | .rotateLeft idxs => doc.rotatePagesLeft idxs

def applyEdits (rs : List EditRequest) (doc : Document) : Document :=
  rs.foldl (fun d r => applyEdit r d) doc

/-- Number of history entries an edit request produces (0 for the silent
no-ops on an empty index set / inverted range). -/
def EditRequest.cost : EditRequest → Nat
  | .removePages idxs => if idxs.isEmpty then 0 else 1
  | .removePageRange a b => if b < a then 0 else 1
  | .rotateRight idxs => if idxs.isEmpty then 0 else 1
  | .rotateLeft idxs => if idxs.isEmpty then 0 else 1

def newCount (rs : List EditRequest) : Nat :=
  (rs.map EditRequest.cost).sum

/-! ## The persisted artifact

Modelled from the spec: `PdfSaver` (not among the given sources) persists the
Document's *current* page sequence, with rotations and removals applied, to
the destination.  The byte stream is abstracted as the sequence of
(source page identity, rotation) pairs it renders, in visual order. -/

def serialize (doc : Document) : List (Nat × Nat) :=
  doc.pages.map (fun p => (p.sourceIndex, p.rotation))

/-! ## AppWindow (src/application/appwindow.cpp)

The enablement state of the window's `Gio::SimpleAction`s.  Activating a
disabled action is a no-op (GTK does not emit `activate` for disabled
actions), which is how the window gates edits and saves. -/

structure Actions where
  openAction : Bool
  saveAction : Bool
  undoAction : Bool
  redoAction : Bool
  removeSelectedAction : Bool
  removeUnselectedAction : Bool
  removePreviousAction : Bool
  removeNextAction : Bool
  rotateRightAction : Bool
  rotateLeftAction : Bool
  cancelSelectionAction : Bool
deriving DecidableEq, Repr

def Actions.allOff : Actions :=
  { openAction := false, saveAction := false, undoAction := false
    redoAction := false, removeSelectedAction := false
    removeUnselectedAction := false, removePreviousAction := false
    removeNextAction := false, rotateRightAction := false
    rotateLeftAction := false, cancelSelectionAction := false }

/-- `AppWindow::disableEditingActions`. -/
def disableEditingActions (_ : Actions) : Actions := Actions.allOff

/-- `AppWindow::onSelectedPagesChanged`, as a function of the selected child
indexes, the number of view children (= pages) and the previous enablement.
`getSelectedChildIndex` (meaningful when exactly one child is selected) is
the head of the selection. -/
def selectionActions (sel : List Nat) (numPages : Nat) (acts : Actions) : Actions :=
  let numSelected := sel.length
  let a :=
    if numSelected == 0 then
      { acts with removeSelectedAction := false, removeUnselectedAction := false
                  removePreviousAction := false, removeNextAction := false
                  rotateRightAction := false, rotateLeftAction := false
                  cancelSelectionAction := false }
    else
      { acts with removeSelectedAction := true, rotateRightAction := true
                  rotateLeftAction := true, removeUnselectedAction := true
                  cancelSelectionAction := true }
  let a :=
    if numSelected == 1 then
      let index : Int := (sel.headD 0 : Int)
      let a := if index == 0 then { a with removePreviousAction := false }
               else { a with removePreviousAction := true }
      if index == (numPages : Int) - 1 then { a with removeNextAction := false }
      else { a with removeNextAction := true }
    else a
  if numSelected > 1 then
    { a with removePreviousAction := false, removeNextAction := false }
  else a

/-- `AppWindow::onCommandExecuted` (connected to the Document's change
notification): reflect `canUndo`/`canRedo` into the undo/redo actions. -/
def historyActions (doc : Document) (acts : Actions) : Actions :=
  { acts with undoAction := doc.canUndo, redoAction := doc.canRedo }

/-- The AppWindow state touched by the claims: the owned Document, the view's
selected child indexes, the action enablement, the `m_isSavingDocument` flag
and the visible stack child. -/
structure AppWindow where
  document : Document
  selection : List Nat
  actions : Actions
  isSavingDocument : Bool
  stackChild : String
deriving DecidableEq, Repr

/-- `AppWindow::enableEditingActions`: enable open/save, then recompute the
selection-dependent and history-dependent actions. -/
def enableEditingActions (s : AppWindow) : AppWindow :=
  let a := { s.actions with openAction := true, saveAction := true }
  let a := selectionActions s.selection s.document.pages.length a
  let a := historyActions s.document a
  { s with actions := a }

/-- `AppWindow::setDocument`: install the freshly opened document, switch the
stack to the editor, enable the save action. -/
def setDocument (s : AppWindow) (doc : Document) : AppWindow :=
  { s with document := doc
           selection := []
           stackChild := "editor"
           actions := { s.actions with saveAction := true } }

/-- The coordinator phase exposed to the claims. -/
inductive SavePhase where
  | idle
  | saving
deriving DecidableEq, Repr

def phaseOf (s : AppWindow) : SavePhase :=
  if s.isSavingDocument then .saving else .idle

/-- `AppWindow::on_delete_event`: returns `m_isSavingDocument`; returning
`true` tells GTK the event is handled, i.e. the window-close request is
ignored. -/
def on_delete_event (s : AppWindow) : Bool :=
  s.isSavingDocument

/-- The two terminal save signals delivered through `Glib::Dispatcher`. -/
inductive TermSignal where
  | saved
  | savingFailed
deriving DecidableEq, Repr

/-- Observable effects of a step.  `dispatcherSignal` is a cross-thread
dispatch onto the controlling context (`m_savedDispatcher` /
`m_savingFailedDispatcher`); `raisedFault` would be an exception escaping
onto the controlling context's call stack (never produced — the worker body
catches everything); `alreadySavingError` would be the error the spec's
`requestSave` contract mentions (never produced — the source has no such
error). -/
inductive Output where
  | wroteFile (bytes : List (Nat × Nat))
  | dispatcherSignal (sig : TermSignal)
  | errorDialog
  | raisedFault
  | alreadySavingError
deriving DecidableEq, Repr

/-- The event surface of the window that touches the modelled state: action
activations, a selection change in the view, completion of the save worker
(`ok` = the `PdfSaver::save` call did not throw) and the result of
constructing a `Document` from a chosen file (`none` = the constructor
threw, i.e. `OpenError`). -/
inductive Event where
  | actSave
  | saveCompletes (ok : Bool)
  | actOpen (result : Option Document)
  | selectionChanged (sel : List Nat)
  | actRemoveSelected
  | actRemoveUnselected
  | actRemovePrevious
  | actRemoveNext
  | actRotateRight
  | actRotateLeft
  | actUndo
  | actRedo
  | actCancelSelection
deriving DecidableEq, Repr

/-- `m_view.getSelectedChildIndex()`. -/
def selectedChildIndex (s : AppWindow) : Nat :=
  s.selection.headD 0

/-- `m_view.getUnselectedChildrenIndexes()`. -/
def unselectedIndexes (s : AppWindow) : List Nat :=
  (List.range s.document.pages.length).filter (fun i => !s.selection.contains i)

/-- A Document edit made from a window handler.  The Document emits its
change notification exactly when the history mutated, and the notification
runs `onCommandExecuted`. -/
def editStep (s : AppWindow) (d : Document) : AppWindow × List Output :=
  if d.history == s.document.history then ({ s with document := d }, [])
  else ({ s with document := d, actions := historyActions d s.actions }, [])

/-- `AppWindow::tryOpenDocument`: the undo/redo actions are disabled *before*
the construction attempt; on failure an error dialog is shown and nothing
else happens. -/
def tryOpenDocument (s : AppWindow) (result : Option Document) : AppWindow × List Output :=
  let s1 := { s with actions := { s.actions with undoAction := false, redoAction := false } }
  match result with
  | some doc => (setDocument s1 doc, [])
  | none => (s1, [.errorDialog])

/-- One step of the window.  `actSave` embeds `AppWindow::trySaveDocument`:
it reveals the saving banner, disables the editing actions, sets
`m_isSavingDocument` and detaches a worker thread; the worker is *not*
handed a snapshot — at completion time it reads `*m_document` as it then is.
`saveCompletes ok` embeds the end of the worker body plus the dispatcher
handler it wakes: on success the bytes written are the serialization of the
document *at completion time*; either way `m_isSavingDocument` is cleared
and `enableEditingActions` runs. -/
def step (s : AppWindow) : Event → AppWindow × List Output
  | .actSave =>
    if s.actions.saveAction then
      ({ s with actions := disableEditingActions s.actions, isSavingDocument := true }, [])
    else (s, [])
  | .saveCompletes ok =>
    if s.isSavingDocument then
      let s1 := enableEditingActions { s with isSavingDocument := false }
      if ok then (s1, [.wroteFile (serialize s.document), .dispatcherSignal .saved])
      else (s1, [.dispatcherSignal .savingFailed, .errorDialog])
    else (s, [])
  | .actOpen result =>
    if s.actions.openAction then tryOpenDocument s result else (s, [])
  | .selectionChanged sel =>
    ({ s with selection := sel
              actions := selectionActions sel s.document.pages.length s.actions }, [])
  | .actRemoveSelected =>
    if s.actions.removeSelectedAction then editStep s (s.document.removePages s.selection)
    else (s, [])
  | .actRemoveUnselected =>
    if s.actions.removeUnselectedAction then editStep s (s.document.removePages (unselectedIndexes s))
    else (s, [])
  | .actRemovePrevious =>
    if s.actions.removePreviousAction then
      editStep s (s.document.removePageRange 0 ((selectedChildIndex s : Int) - 1))
    else (s, [])
  | .actRemoveNext =>
    if s.actions.removeNextAction then
      editStep s (s.document.removePageRange ((selectedChildIndex s : Int) + 1)
                    ((s.document.pages.length : Int) - 1))
    else (s, [])
  | .actRotateRight =>
    if s.actions.rotateRightAction then editStep s (s.document.rotatePagesRight s.selection)
    else (s, [])
  | .actRotateLeft =>
    if s.actions.rotateLeftAction then editStep s (s.document.rotatePagesLeft s.selection)
    else (s, [])
  | .actUndo =>
    if s.actions.undoAction then editStep s (undoStep s.document)
    else (s, [])
  | .actRedo =>
    if s.actions.redoAction then editStep s ((s.document.redoCommand).getD s.document)
    else (s, [])
  | .actCancelSelection =>
    if s.actions.cancelSelectionAction then
      ({ s with selection := []
                actions := selectionActions [] s.document.pages.length s.actions }, [])
    else (s, [])

def run (s : AppWindow) : List Event → AppWindow
  | [] => s
  | e :: es => run (step s e).1 es

def runOutputs (s : AppWindow) : List Event → List Output
  | [] => []
  | e :: es => (step s e).2 ++ runOutputs (step s e).1 es

def writesOf (outs : List Output) : List (List (Nat × Nat)) :=
  outs.filterMap (fun o => match o with | .wroteFile b => some b | _ => none)

def signalsOf (outs : List Output) : List TermSignal :=
  outs.filterMap (fun o => match o with | .dispatcherSignal g => some g | _ => none)

/-- The action enablement `enableEditingActions` produces, written directly
as a function of the selection and the document. -/
def fullEnablement (sel : List Nat) (doc : Document) : Actions :=
  let n := sel.length
  let index : Int := (sel.headD 0 : Int)
  let lastIndex : Int := (doc.pages.length : Int) - 1
  { openAction := true
    saveAction := true
    undoAction := doc.canUndo
    redoAction := doc.canRedo
    removeSelectedAction := decide (1 ≤ n)
    removeUnselectedAction := decide (1 ≤ n)
    removePreviousAction := decide (n = 1) && !(decide (index = 0))
    removeNextAction := decide (n = 1) && !(decide (index = lastIndex))
    rotateRightAction := decide (1 ≤ n)
    rotateLeftAction := decide (1 ≤ n)
    cancelSelectionAction := decide (1 ≤ n) }

/-! ## SettingsManager (src/application/settingsmanager.cpp) -/

structure WindowState where
  width : Int
  height : Int
  isMaximized : Bool
deriving DecidableEq, Repr

/-- `window_state::defaultWindowState = {800, 600, false}`. -/
def defaultWindowState : WindowState :=
  { width := 800, height := 600, isMaximized := false }

/-- The `Glib::KeyFile` interface the settings manager uses: lookups that
throw (here: return `none`) when the file was unreadable, the group or key
is absent, or the value is malformed. -/
structure KeyFile where
  getInteger : String → String → Option Int
  getBoolean : String → String → Option Bool

/-- `SettingsManager::loadWindowState`: read width, height and is-maximized
in order inside one try block; any failure discards partial reads and yields
the default window state. -/
def loadWindowState (kf : KeyFile) : WindowState :=
  match kf.getInteger "window-state" "width",
        kf.getInteger "window-state" "height",
        kf.getBoolean "window-state" "is-maximized" with
  | some w, some h, some m => { width := w, height := h, isMaximized := m }
  | _, _, _ => defaultWindowState

/-- While a save is in flight the open and save actions are disabled: this is
established by `trySaveDocument` (which calls `disableEditingActions`) and no
handler re-enables either action before the terminal signal
(`onSelectedPagesChanged` touches only the selection-dependent actions). -/
def SaveGateInv (s : AppWindow) : Prop :=
  s.isSavingDocument = true →
    (s.actions.saveAction = false ∧ s.actions.openAction = false)

instance (s : AppWindow) : Decidable (SaveGateInv s) := by
  unfold SaveGateInv
  infer_instance

/-! ## Concrete sample states used by witnesses and counterexamples -/

def samplePages : List Page :=
  [⟨0, 0, false⟩, ⟨1, 0, false⟩]

def sampleDoc : Document :=
  { pages := samplePages, history := { applied := [], undone := [] } }

def sampleDoc3 : Document :=
  { pages := [⟨0, 0, false⟩, ⟨1, 90, false⟩, ⟨2, 180, false⟩]
    history := { applied := [], undone := [] } }

def witnessEdits : List EditRequest :=
  [.removePages [1], .rotateRight [0], .removePageRange 0 0, .rotateLeft []]

/-- `sampleDoc` after one executed rotation: a document whose undo action is
legitimately enabled. -/
def sampleDocEdited : Document :=
  sampleDoc.rotatePagesRight [0]

def sampleWindowEdited (doc : Document) (acts : Actions) : AppWindow :=
  { document := doc
    selection := []
    actions := acts
    isSavingDocument := false
    stackChild := "editor" }

/-- A key file holding a complete window-state group. -/
def kfStored : KeyFile :=
  { getInteger := fun _ _ => some 640, getBoolean := fun _ _ => some true }

/-- A key file with nothing in it (settings file missing or unreadable). -/
def kfEmpty : KeyFile :=
  { getInteger := fun _ _ => none, getBoolean := fun _ _ => none }

/-- A window showing `sampleDoc` with page 0 selected and the actions in the
state `enableEditingActions` would give them. -/
def sampleWindow : AppWindow :=
  { document := sampleDoc
    selection := [0]
    actions :=
      { openAction := true, saveAction := true, undoAction := false
        redoAction := false, removeSelectedAction := true
        removeUnselectedAction := true, removePreviousAction := false
        removeNextAction := true, rotateRightAction := true
        rotateLeftAction := true, cancelSelectionAction := true }
    isSavingDocument := false
    stackChild := "editor" }

/-! # Theorems -/

/-- Claim C2: a window-close request is refused exactly when a save is in
flight — `on_delete_event` returns (and thereby swallows the event) exactly
the `m_isSavingDocument` flag, so teardown is refused in phase `saving` and
succeeds in phase `idle`. -/
theorem delete_event_refused_iff_saving (s : AppWindow) :
    (on_delete_event s = true ↔ phaseOf s = .saving) ∧
    (on_delete_event s = false ↔ phaseOf s = .idle) := by
  unfold on_delete_event phaseOf
  by_cases h : s.isSavingDocument <;> simp [h]

/-- Counterexample to claim C6 as stated: with a document open and its undo
action enabled, a failed open attempt leaves the previous document in place
but does *not* leave the session's history affordances unchanged —
`tryOpenDocument` disables the undo/redo actions before constructing the new
document and never restores them on failure. -/
theorem tryOpen_failure_cex :
    (sampleWindowEdited sampleDocEdited
        { sampleWindow.actions with undoAction := true }).actions.undoAction = true ∧
    (tryOpenDocument (sampleWindowEdited sampleDocEdited
        { sampleWindow.actions with undoAction := true }) none).1.actions.undoAction = false ∧
    (tryOpenDocument (sampleWindowEdited sampleDocEdited
        { sampleWindow.actions with undoAction := true }) none).1.document
      = sampleDocEdited := by
  decide

/-- Claim C6, amended: constructing a Document from an unreadable or corrupt
source fails with `OpenError` (the constructor throws, caught by
`tryOpenDocument`) and is all-or-nothing as far as the document is concerned:
no partially-constructed Document becomes observable and the previously open
document, selection, save phase and visible screen are unchanged — but the
undo and redo actions, disabled before the construction attempt, stay
disabled after the failure.  An error dialog is the only output. -/
theorem tryOpen_failure_state (s : AppWindow) :
    (tryOpenDocument s none).1.document = s.document ∧
    (tryOpenDocument s none).1.selection = s.selection ∧
    (tryOpenDocument s none).1.isSavingDocument = s.isSavingDocument ∧
    (tryOpenDocument s none).1.stackChild = s.stackChild ∧
    (tryOpenDocument s none).1.actions
      = { s.actions with undoAction := false, redoAction := false } ∧
    (tryOpenDocument s none).2 = [Output.errorDialog] := by
  simp [tryOpenDocument]

/-- Claim C8: executing a new command clears the undone stack, so `canRedo()`
is false immediately after the next execute (linear history, no branching);
the change notification then also disables the redo action. -/
theorem execute_clears_redo (doc : Document) (op : Op) (acts : Actions) :
    (doc.executeOp op).history.undone = [] ∧
    (doc.executeOp op).canRedo = false ∧
    (historyActions (doc.executeOp op) acts).redoAction = false := by
  simp [Document.executeOp, Document.canRedo, CommandHistory.canRedo, historyActions]

/-- Claim C9: `loadWindowState` is total: when the key file holds all three
window-state entries it returns them, and on any failed lookup (file missing,
unreadable, key absent or malformed — the lookup "throws", modelled as
`none`) it returns the default window state {800, 600, not maximized}. -/
theorem loadWindowState_total (kf : KeyFile) :
    (∀ w h m, kf.getInteger "window-state" "width" = some w →
        kf.getInteger "window-state" "height" = some h →
        kf.getBoolean "window-state" "is-maximized" = some m →
        loadWindowState kf = { width := w, height := h, isMaximized := m }) ∧
    ((kf.getInteger "window-state" "width" = none ∨
      kf.getInteger "window-state" "height" = none ∨
      kf.getBoolean "window-state" "is-maximized" = none) →
      loadWindowState kf = defaultWindowState) := by
  constructor
  · intro w h m hw hh hm
    simp [loadWindowState, hw, hh, hm]
  · intro hcase
    unfold loadWindowState
    rcases hw : kf.getInteger "window-state" "width" with _ | w <;>
      rcases hh : kf.getInteger "window-state" "height" with _ | h <;>
        rcases hm : kf.getBoolean "window-state" "is-maximized" with _ | m <;>
          simp [hw, hh, hm] at hcase ⊢

/-- Witness for C9 at two concrete key files. -/
theorem loadWindowState_total_witness :
    loadWindowState kfStored = { width := 640, height := 640, isMaximized := true } ∧
    loadWindowState kfEmpty = defaultWindowState :=
  ⟨(loadWindowState_total kfStored).1 640 640 true rfl rfl rfl,
   (loadWindowState_total kfEmpty).2 (Or.inl rfl)⟩

/-! ## Exact reversal of removal commands -/

theorem reinsert_cons (ip : Nat × Page) (saved : List (Nat × Page)) (l : List Page) :
    reinsert (ip :: saved) l = reinsert saved (l.insertIdx ip.1 ip.2) :=
  rfl

theorem reinsert_shift (saved : List (Nat × Page)) (a : Page) :
    ∀ l : List Page,
      reinsert (saved.map (fun ip => (ip.1 + 1, ip.2))) (a :: l) = a :: reinsert saved l := by
  induction saved with
  | nil => intro l; rfl
  | cons ip rest ih =>
    intro l
    rw [List.map_cons, reinsert_cons, reinsert_cons]
    rw [List.insertIdx_succ_cons]
    exact ih (l.insertIdx ip.1 ip.2)

/-- Reinserting the captured pages, lowest recorded position first, into the
survivor sequence reconstructs the original sequence exactly. -/
theorem reinsert_captured (l : List Page) :
    ∀ s : Nat → Bool, reinsert (captured s l) (survivors s l) = l := by
  induction l with
  | nil => intro s; rfl
  | cons p t ih =>
    intro s
    by_cases h : s 0
    · simp only [captured, survivors, h, if_true, reinsert_cons, List.insertIdx_zero]
      rw [reinsert_shift, ih]
    · simp only [captured, survivors, h, if_false, Bool.false_eq_true]
      rw [reinsert_shift, ih]

theorem mem_captured_mem {l : List Page} :
    ∀ {s : Nat → Bool} {i : Nat} {p : Page}, (i, p) ∈ captured s l → p ∈ l := by
  induction l with
  | nil => intro s i p h; simp [captured] at h
  | cons q t ih =>
    intro s i p h
    by_cases hq : s 0 <;> simp only [captured, hq, if_true, if_false] at h
    · rcases List.mem_cons.mp h with heq | hmem
      · rw [Prod.mk.injEq] at heq
        exact heq.2 ▸ List.mem_cons_self q t
      · rcases List.mem_map.mp hmem with ⟨⟨i', p'⟩, hip, heq⟩
        rw [Prod.mk.injEq] at heq
        exact List.mem_cons_of_mem q (heq.2 ▸ ih hip)
    · simp only [Bool.false_eq_true, if_false] at h
      rcases List.mem_map.mp h with ⟨⟨i', p'⟩, hip, heq⟩
      rw [Prod.mk.injEq] at heq
      exact List.mem_cons_of_mem q (heq.2 ▸ ih hip)

theorem mem_survivors_mem {l : List Page} :
    ∀ {s : Nat → Bool} {p : Page}, p ∈ survivors s l → p ∈ l := by
  induction l with
  | nil => intro s p h; simp [survivors] at h
  | cons q t ih =>
    intro s p h
    by_cases hq : s 0 <;> simp only [survivors, hq, if_true, if_false] at h
    · exact List.mem_cons_of_mem q (ih h)
    · simp only [Bool.false_eq_true, if_false] at h
      rcases List.mem_cons.mp h with heq | hmem
      · exact heq ▸ List.mem_cons_self q t
      · exact List.mem_cons_of_mem q (ih hmem)

theorem markRestored_markRemoved (p : Page) (h : p.removed = false) :
    markRestored (markRemoved p) = p := by
  cases p with
  | mk si r rem =>
    simp only [markRemoved, markRestored]
    simp at h
    rw [h]

/-- `apply` then `reverse` of a removal command restores the exact prior
sequence, provided no page of the visible sequence is flagged removed. -/
theorem remove_roundtrip (s : Nat → Bool) (l : List Page)
    (h : ∀ p ∈ l, p.removed = false) :
    reinsert (((captured s l).map (fun ip => (ip.1, markRemoved ip.2))).map
        (fun ip => (ip.1, markRestored ip.2))) (survivors s l) = l := by
  rw [List.map_map]
  have hmap : (captured s l).map
      ((fun ip : Nat × Page => (ip.1, markRestored ip.2)) ∘
        (fun ip : Nat × Page => (ip.1, markRemoved ip.2))) = captured s l := by
    have := List.map_congr_left (l := captured s l)
      (f := (fun ip : Nat × Page => (ip.1, markRestored ip.2)) ∘
        (fun ip : Nat × Page => (ip.1, markRemoved ip.2)))
      (g := id)
      (fun ip hip => by
        obtain ⟨i, p⟩ := ip
        have hp : p ∈ l := mem_captured_mem hip
        simp only [Function.comp_apply, id_eq]
        rw [markRestored_markRemoved p (h p hp)])
    simpa using this
  rw [hmap, reinsert_captured]

/-! ## Exact reversal of rotation commands -/

theorem rotateLeft_rotateRight (p : Page) (h : p.rotation < 360) :
    rotateLeftPage (rotateRightPage p) = p := by
  cases p with
  | mk si r rem =>
    simp only [rotateRightPage, rotateLeftPage, Page.mk.injEq, and_true, true_and]
    simp only [Page.rotation] at h
    omega

theorem rotateRight_rotateLeft (p : Page) (h : p.rotation < 360) :
    rotateRightPage (rotateLeftPage p) = p := by
  cases p with
  | mk si r rem =>
    simp only [rotateRightPage, rotateLeftPage, Page.mk.injEq, and_true, true_and]
    simp only [Page.rotation] at h
    omega

theorem rotateSel_inverse (f g : Page → Page) :
    ∀ (l : List Page), (∀ p ∈ l, g (f p) = p) →
      ∀ s : Nat → Bool, rotateSel g s (rotateSel f s l) = l := by
  intro l
  induction l with
  | nil => intro _ s; rfl
  | cons p t ih =>
    intro h s
    by_cases hs : s 0 <;> simp only [rotateSel, hs, if_true, if_false]
    · rw [h p (List.mem_cons_self p t),
        ih (fun q hq => h q (List.mem_cons_of_mem p hq))]
    · simp only [Bool.false_eq_true, if_false]
      rw [ih (fun q hq => h q (List.mem_cons_of_mem p hq))]

/-- Claim C7, part inverse pair: `apply()` followed by `reverse()` on any
single Command restores the exact prior sequence and per-page state. -/
theorem applyOp_reverseOp (op : Op) (l : List Page) (h : PagesOK l) :
    reverseOp op (applyOp op l).2 (applyOp op l).1 = l := by
  cases op with
  | removePages idxs =>
    exact remove_roundtrip _ _ (fun p hp => (h p hp).2)
  | removePageRange a b =>
    exact remove_roundtrip _ _ (fun p hp => (h p hp).2)
  | rotatePagesRight idxs =>
    exact rotateSel_inverse _ _ _ (fun p hp => rotateLeft_rotateRight p (h p hp).1) _
  | rotatePagesLeft idxs =>
    exact rotateSel_inverse _ _ _ (fun p hp => rotateRight_rotateLeft p (h p hp).1) _

/-! ## The Page invariant is preserved by every edit -/

theorem mem_rotateSel {f : Page → Page} {l : List Page} :
    ∀ {s : Nat → Bool} {q : Page}, q ∈ rotateSel f s l → q ∈ l ∨ ∃ p ∈ l, q = f p := by
  induction l with
  | nil => intro s q h; simp [rotateSel] at h
  | cons p t ih =>
    intro s q h
    simp only [rotateSel] at h
    rcases List.mem_cons.mp h with heq | hmem
    · by_cases hs : s 0
      · exact Or.inr ⟨p, List.mem_cons_self p t, by simpa [hs] using heq⟩
      · exact Or.inl (by simp [hs] at heq; simp [heq])
    · rcases ih hmem with hin | ⟨p', hp', hq⟩
      · exact Or.inl (List.mem_cons_of_mem p hin)
      · exact Or.inr ⟨p', List.mem_cons_of_mem p hp', hq⟩

theorem pagesOK_rotateRightPage (p : Page) (h : p.rotation < 360 ∧ p.removed = false) :
    (rotateRightPage p).rotation < 360 ∧ (rotateRightPage p).removed = false := by
  cases p with
  | mk si r rem => exact ⟨by simp [rotateRightPage]; omega, by simpa [rotateRightPage] using h.2⟩

theorem pagesOK_rotateLeftPage (p : Page) (h : p.rotation < 360 ∧ p.removed = false) :
    (rotateLeftPage p).rotation < 360 ∧ (rotateLeftPage p).removed = false := by
  cases p with
  | mk si r rem => exact ⟨by simp [rotateLeftPage]; omega, by simpa [rotateLeftPage] using h.2⟩

theorem pagesOK_applyOp (op : Op) (l : List Page) (h : PagesOK l) :
    PagesOK (applyOp op l).1 := by
  cases op with
  | removePages idxs => exact fun p hp => h p (mem_survivors_mem hp)
  | removePageRange a b => exact fun p hp => h p (mem_survivors_mem hp)
  | rotatePagesRight idxs =>
    intro q hq
    rcases mem_rotateSel hq with hin | ⟨p, hp, hqe⟩
    · exact h q hin
    · exact hqe ▸ pagesOK_rotateRightPage p (h p hp)
  | rotatePagesLeft idxs =>
    intro q hq
    rcases mem_rotateSel hq with hin | ⟨p, hp, hqe⟩
    · exact h q hin
    · exact hqe ▸ pagesOK_rotateLeftPage p (h p hp)

theorem pagesOK_applyEdit (r : EditRequest) (doc : Document) (h : PagesOK doc.pages) :
    PagesOK (applyEdit r doc).pages := by
  cases r with
  | removePages idxs =>
    by_cases hi : idxs.isEmpty <;>
      simp only [applyEdit, Document.removePages, hi, if_true, if_false,
        Bool.false_eq_true] <;>
      first
        | exact h
        | exact pagesOK_applyOp _ _ h
  | removePageRange a b =>
    by_cases hi : b < a <;>
      simp only [applyEdit, Document.removePageRange, hi, if_true, if_false] <;>
      first
        | exact h
        | exact pagesOK_applyOp _ _ h
  | rotateRight idxs =>
    by_cases hi : idxs.isEmpty <;>
      simp only [applyEdit, Document.rotatePagesRight, hi, if_true, if_false,
        Bool.false_eq_true] <;>
      first
        | exact h
        | exact pagesOK_applyOp _ _ h
  | rotateLeft idxs =>
    by_cases hi : idxs.isEmpty <;>
      simp only [applyEdit, Document.rotatePagesLeft, hi, if_true, if_false,
        Bool.false_eq_true] <;>
      first
        | exact h
        | exact pagesOK_applyOp _ _ h

/-! ## Undoing a batch of edits -/

theorem undoN_add (m n : Nat) : ∀ d : Document, undoN (m + n) d = undoN n (undoN m d) := by
  induction m with
  | zero => intro d; rw [Nat.zero_add]; rfl
  | succ m ih =>
    intro d
    rw [Nat.succ_add]
    show undoN (m + n) (undoStep d) = undoN n (undoN m (undoStep d))
    exact ih (undoStep d)

theorem undoStep_pop (X : Document) (c : ExecCmd) (rest : List ExecCmd)
    (hx : X.history.applied = c :: rest) :
    (undoStep X).pages = reverseOp c.op c.saved X.pages ∧
    (undoStep X).history.applied = rest := by
  unfold undoStep Document.undoCommand
  rw [hx]
  exact ⟨rfl, rfl⟩

theorem applyEdit_applied (r : EditRequest) (doc : Document) :
    (applyEdit r doc).history.applied.length = r.cost + doc.history.applied.length := by
  cases r with
  | removePages idxs =>
    by_cases hi : idxs.isEmpty <;>
      simp [applyEdit, Document.removePages, Document.executeOp, EditRequest.cost, hi] <;>
        omega
  | removePageRange a b =>
    by_cases hi : b < a <;>
      simp [applyEdit, Document.removePageRange, Document.executeOp, EditRequest.cost, hi] <;>
        omega
  | rotateRight idxs =>
    by_cases hi : idxs.isEmpty <;>
      simp [applyEdit, Document.rotatePagesRight, Document.executeOp, EditRequest.cost, hi] <;>
        omega
  | rotateLeft idxs =>
    by_cases hi : idxs.isEmpty <;>
      simp [applyEdit, Document.rotatePagesLeft, Document.executeOp, EditRequest.cost, hi] <;>
        omega

theorem applyEdits_applied (rs : List EditRequest) :
    ∀ doc : Document,
      (applyEdits rs doc).history.applied.length
        = newCount rs + doc.history.applied.length := by
  induction rs with
  | nil => intro doc; simp [applyEdits, newCount]
  | cons r rs ih =>
    intro doc
    show (applyEdits rs (applyEdit r doc)).history.applied.length = _
    rw [ih (applyEdit r doc), applyEdit_applied]
    simp [newCount]
    omega

theorem executeOp_pages (doc : Document) (op : Op) :
    (doc.executeOp op).pages = (applyOp op doc.pages).1 :=
  rfl

theorem executeOp_applied (doc : Document) (op : Op) :
    (doc.executeOp op).history.applied
      = ⟨op, (applyOp op doc.pages).2⟩ :: doc.history.applied :=
  rfl

/-- Undoing once more after a batch has been fully undone pops exactly the
command `executeOp` pushed and restores the pre-execute state. -/
theorem undo_batch_execute (rs : List EditRequest) (doc : Document) (op : Op)
    (h : PagesOK doc.pages)
    (hy : (undoN (newCount rs) (applyEdits rs (doc.executeOp op))).pages
            = (doc.executeOp op).pages ∧
          (undoN (newCount rs) (applyEdits rs (doc.executeOp op))).history.applied
            = (doc.executeOp op).history.applied) :
    (undoN 1 (undoN (newCount rs) (applyEdits rs (doc.executeOp op)))).pages
      = doc.pages ∧
    (undoN 1 (undoN (newCount rs) (applyEdits rs (doc.executeOp op)))).history.applied
      = doc.history.applied := by
  have hx : (undoN (newCount rs) (applyEdits rs (doc.executeOp op))).history.applied
      = ⟨op, (applyOp op doc.pages).2⟩ :: doc.history.applied := by
    rw [hy.2, executeOp_applied]
  obtain ⟨h1, h2⟩ := undoStep_pop _ _ _ hx
  refine ⟨?_, ?_⟩
  · show (undoStep _).pages = doc.pages
    rw [h1, hy.1, executeOp_pages]
    exact applyOp_reverseOp op doc.pages h
  · show (undoStep _).history.applied = doc.history.applied
    rw [h2]

/-- Undoing exactly the number of commands a batch of edits pushed restores
the page sequence and the applied stack that existed before the batch. -/
theorem undo_applyEdits (rs : List EditRequest) :
    ∀ doc : Document, PagesOK doc.pages →
      (undoN (newCount rs) (applyEdits rs doc)).pages = doc.pages ∧
      (undoN (newCount rs) (applyEdits rs doc)).history.applied
        = doc.history.applied := by
  induction rs with
  | nil => intro doc _; exact ⟨rfl, rfl⟩
  | cons r rs ih =>
    intro doc h
    have hcount : newCount (r :: rs) = newCount rs + r.cost := by
      simp [newCount]; omega
    have hstep : applyEdits (r :: rs) doc = applyEdits rs (applyEdit r doc) := rfl
    rw [hstep, hcount, undoN_add]
    cases r with
    | removePages idxs =>
      by_cases hi : idxs.isEmpty
      · have hnoop : applyEdit (.removePages idxs) doc = doc := by
          simp [applyEdit, Document.removePages, hi]
        have hzero : EditRequest.cost (.removePages idxs) = 0 := by
          simp [EditRequest.cost, hi]
        rw [hnoop, hzero]
        exact ih doc h
      · have hexec : applyEdit (.removePages idxs) doc
            = doc.executeOp (.removePages idxs) := by
          simp [applyEdit, Document.removePages, hi]
        have hone : EditRequest.cost (.removePages idxs) = 1 := by
          simp [EditRequest.cost, hi]
        rw [hexec, hone]
        exact undo_batch_execute rs doc _ h
          (ih (doc.executeOp (.removePages idxs)) (pagesOK_applyOp _ doc.pages h))
    | removePageRange a b =>
      by_cases hi : b < a
      · have hnoop : applyEdit (.removePageRange a b) doc = doc := by
          simp [applyEdit, Document.removePageRange, hi]
        have hzero : EditRequest.cost (.removePageRange a b) = 0 := by
          simp [EditRequest.cost, hi]
        rw [hnoop, hzero]
        exact ih doc h
      · have hexec : applyEdit (.removePageRange a b) doc
            = doc.executeOp (.removePageRange a b) := by
          simp [applyEdit, Document.removePageRange, hi]
        have hone : EditRequest.cost (.removePageRange a b) = 1 := by
          simp [EditRequest.cost, hi]
        rw [hexec, hone]
        exact undo_batch_execute rs doc _ h
          (ih (doc.executeOp (.removePageRange a b)) (pagesOK_applyOp _ doc.pages h))
    | rotateRight idxs =>
      by_cases hi : idxs.isEmpty
      · have hnoop : applyEdit (.rotateRight idxs) doc = doc := by
          simp [applyEdit, Document.rotatePagesRight, hi]
        have hzero : EditRequest.cost (.rotateRight idxs) = 0 := by
          simp [EditRequest.cost, hi]
        rw [hnoop, hzero]
        exact ih doc h
      · have hexec : applyEdit (.rotateRight idxs) doc
            = doc.executeOp (.rotatePagesRight idxs) := by
          simp [applyEdit, Document.rotatePagesRight, hi]
        have hone : EditRequest.cost (.rotateRight idxs) = 1 := by
          simp [EditRequest.cost, hi]
        rw [hexec, hone]
        exact undo_batch_execute rs doc _ h
          (ih (doc.executeOp (.rotatePagesRight idxs)) (pagesOK_applyOp _ doc.pages h))
    | rotateLeft idxs =>
      by_cases hi : idxs.isEmpty
      · have hnoop : applyEdit (.rotateLeft idxs) doc = doc := by
          simp [applyEdit, Document.rotatePagesLeft, hi]
        have hzero : EditRequest.cost (.rotateLeft idxs) = 0 := by
          simp [EditRequest.cost, hi]
        rw [hnoop, hzero]
        exact ih doc h
      · have hexec : applyEdit (.rotateLeft idxs) doc
            = doc.executeOp (.rotatePagesLeft idxs) := by
          simp [applyEdit, Document.rotatePagesLeft, hi]
        have hone : EditRequest.cost (.rotateLeft idxs) = 1 := by
          simp [EditRequest.cost, hi]
        rw [hexec, hone]
        exact undo_batch_execute rs doc _ h
          (ih (doc.executeOp (.rotatePagesLeft idxs)) (pagesOK_applyOp _ doc.pages h))

/-- Claim C7: for every sequence of edit commands applied to a Document
satisfying the Page invariant and starting with an empty history, calling
`undo()` repeatedly until `canUndo()` is false restores the original page
sequence including every page's rotation and removed state; and `apply()`
followed by `reverse()` on any single Command is a strict inverse pair. -/
theorem undoAll_restores (rs : List EditRequest) (doc : Document)
    (hok : PagesOK doc.pages) (hfresh : doc.history.applied = []) :
    (undoAll (applyEdits rs doc)).pages = doc.pages ∧
    (undoAll (applyEdits rs doc)).canUndo = false ∧
    ∀ (op : Op) (l : List Page), PagesOK l →
      reverseOp op (applyOp op l).2 (applyOp op l).1 = l := by
  have hlen : (applyEdits rs doc).history.applied.length = newCount rs := by
    rw [applyEdits_applied rs doc, hfresh]
    simp
  have hmain := undo_applyEdits rs doc hok
  unfold undoAll
  rw [hlen]
  refine ⟨hmain.1, ?_, fun op l hl => applyOp_reverseOp op l hl⟩
  simp [Document.canUndo, CommandHistory.canUndo, hmain.2, hfresh]

/-- Witness for C7: a three-page document, a batch containing a removal, two
rotations (one of them a no-op) and a range removal. -/
theorem undoAll_restores_witness :
    PagesOK sampleDoc3.pages ∧ sampleDoc3.history.applied = [] ∧
    ((undoAll (applyEdits witnessEdits sampleDoc3)).pages = sampleDoc3.pages ∧
     (undoAll (applyEdits witnessEdits sampleDoc3)).canUndo = false ∧
     ∀ (op : Op) (l : List Page), PagesOK l →
       reverseOp op (applyOp op l).2 (applyOp op l).1 = l) :=
  ⟨by decide, by decide, undoAll_restores witnessEdits sampleDoc3 (by decide) (by decide)⟩

/-! ## The save gate invariant -/

theorem selectionActions_saveAction (sel : List Nat) (n : Nat) (acts : Actions) :
    (selectionActions sel n acts).saveAction = acts.saveAction := by
  simp only [selectionActions]
  repeat' split
  all_goals rfl

theorem selectionActions_openAction (sel : List Nat) (n : Nat) (acts : Actions) :
    (selectionActions sel n acts).openAction = acts.openAction := by
  simp only [selectionActions]
  repeat' split
  all_goals rfl

theorem editStep_fields (s : AppWindow) (d : Document) :
    (editStep s d).1.isSavingDocument = s.isSavingDocument ∧
    (editStep s d).1.actions.saveAction = s.actions.saveAction ∧
    (editStep s d).1.actions.openAction = s.actions.openAction := by
  unfold editStep
  split <;> simp [historyActions]

theorem editStep_snd (s : AppWindow) (d : Document) : (editStep s d).2 = [] := by
  unfold editStep
  split <;> rfl

/-- Apart from save request, save completion and open, no event changes the
save phase or the enablement of the save and open actions. -/
theorem step_gate_fields (s : AppWindow) (e : Event)
    (hnc : ∀ ok, e ≠ .saveCompletes ok) (hns : e ≠ .actSave)
    (hno : ∀ r, e ≠ .actOpen r) :
    (step s e).1.isSavingDocument = s.isSavingDocument ∧
    (step s e).1.actions.saveAction = s.actions.saveAction ∧
    (step s e).1.actions.openAction = s.actions.openAction := by
  cases e with
  | actSave => exact absurd rfl hns
  | saveCompletes ok => exact absurd rfl (hnc ok)
  | actOpen r => exact absurd rfl (hno r)
  | selectionChanged sel =>
    simp [step, selectionActions_saveAction, selectionActions_openAction]
  | actCancelSelection =>
    by_cases h : s.actions.cancelSelectionAction <;>
      simp [step, h, selectionActions_saveAction, selectionActions_openAction]
  | actRemoveSelected =>
    by_cases h : s.actions.removeSelectedAction <;> simp [step, h, editStep_fields]
  | actRemoveUnselected =>
    by_cases h : s.actions.removeUnselectedAction <;> simp [step, h, editStep_fields]
  | actRemovePrevious =>
    by_cases h : s.actions.removePreviousAction <;> simp [step, h, editStep_fields]
  | actRemoveNext =>
    by_cases h : s.actions.removeNextAction <;> simp [step, h, editStep_fields]
  | actRotateRight =>
    by_cases h : s.actions.rotateRightAction <;> simp [step, h, editStep_fields]
  | actRotateLeft =>
    by_cases h : s.actions.rotateLeftAction <;> simp [step, h, editStep_fields]
  | actUndo =>
    by_cases h : s.actions.undoAction <;> simp [step, h, editStep_fields]
  | actRedo =>
    by_cases h : s.actions.redoAction <;> simp [step, h, editStep_fields]

theorem saveGateInv_step (s : AppWindow) (e : Event) (h : SaveGateInv s) :
    SaveGateInv (step s e).1 := by
  intro hsav
  cases e with
  | actSave =>
    by_cases hs : s.actions.saveAction
    · simp [step, hs, disableEditingActions, Actions.allOff]
    · simp [step, hs] at hsav ⊢
      exact (h hsav).2
  | saveCompletes ok =>
    by_cases hs : s.isSavingDocument
    · exfalso
      cases ok <;> simp [step, hs, enableEditingActions] at hsav
    · simp [step, hs] at hsav
  | actOpen r =>
    by_cases ho : s.actions.openAction
    · exfalso
      have hsv : s.isSavingDocument = true := by
        cases r <;> simpa [step, ho, tryOpenDocument, setDocument] using hsav
      have := (h hsv).2
      rw [this] at ho
      exact Bool.false_ne_true ho
    · simp [step, ho] at hsav ⊢
      exact (h hsav).1
  | selectionChanged sel =>
    have hg := step_gate_fields s (.selectionChanged sel)
      (by intro ok h; cases h) (by intro h; cases h) (by intro r h; cases h)
    rw [hg.1] at hsav
    rw [hg.2.1, hg.2.2]
    exact h hsav
  | actRemoveSelected =>
    have hg := step_gate_fields s .actRemoveSelected
      (by intro ok h; cases h) (by intro h; cases h) (by intro r h; cases h)
    rw [hg.1] at hsav
    rw [hg.2.1, hg.2.2]
    exact h hsav
  | actRemoveUnselected =>
    have hg := step_gate_fields s .actRemoveUnselected
      (by intro ok h; cases h) (by intro h; cases h) (by intro r h; cases h)
    rw [hg.1] at hsav
    rw [hg.2.1, hg.2.2]
    exact h hsav
  | actRemovePrevious =>
    have hg := step_gate_fields s .actRemovePrevious
      (by intro ok h; cases h) (by intro h; cases h) (by intro r h; cases h)
    rw [hg.1] at hsav
    rw [hg.2.1, hg.2.2]
    exact h hsav
  | actRemoveNext =>
    have hg := step_gate_fields s .actRemoveNext
      (by intro ok h; cases h) (by intro h; cases h) (by intro r h; cases h)
    rw [hg.1] at hsav
    rw [hg.2.1, hg.2.2]
    exact h hsav
  | actRotateRight =>
    have hg := step_gate_fields s .actRotateRight
      (by intro ok h; cases h) (by intro h; cases h) (by intro r h; cases h)
    rw [hg.1] at hsav
    rw [hg.2.1, hg.2.2]
    exact h hsav
  | actRotateLeft =>
    have hg := step_gate_fields s .actRotateLeft
      (by intro ok h; cases h) (by intro h; cases h) (by intro r h; cases h)
    rw [hg.1] at hsav
    rw [hg.2.1, hg.2.2]
    exact h hsav
  | actUndo =>
    have hg := step_gate_fields s .actUndo
      (by intro ok h; cases h) (by intro h; cases h) (by intro r h; cases h)
    rw [hg.1] at hsav
    rw [hg.2.1, hg.2.2]
    exact h hsav
  | actRedo =>
    have hg := step_gate_fields s .actRedo
      (by intro ok h; cases h) (by intro h; cases h) (by intro r h; cases h)
    rw [hg.1] at hsav
    rw [hg.2.1, hg.2.2]
    exact h hsav
  | actCancelSelection =>
    have hg := step_gate_fields s .actCancelSelection
      (by intro ok h; cases h) (by intro h; cases h) (by intro r h; cases h)
    rw [hg.1] at hsav
    rw [hg.2.1, hg.2.2]
    exact h hsav

theorem saveGateInv_run (s : AppWindow) (evs : List Event) (h : SaveGateInv s) :
    SaveGateInv (run s evs) := by
  induction evs generalizing s with
  | nil => exact h
  | cons e es ih => exact ih (step s e).1 (saveGateInv_step s e h)

/-- Counterexample to claim C3 as stated: a second save request while a save
is in flight does not fail with an `AlreadySavingError` — the save action is
disabled, so activating it is a silent no-op producing no output at all. -/
theorem second_save_no_error_cex :
    (step (run sampleWindow [.actSave]) .actSave).2 = [] ∧
    (step (run sampleWindow [.actSave]) .actSave).2 ≠ [Output.alreadySavingError] ∧
    (run sampleWindow [.actSave]).isSavingDocument = true := by
  decide

/-- Claim C3, amended: if a save for the Document is already in flight, a
second save request is silently refused — the save action is disabled for
the whole flight, so the activation changes nothing and produces nothing: it
is never queued, never double-executed and leaves the in-flight save's state
untouched (but no `AlreadySavingError` is surfaced; the source has no such
error). -/
theorem second_save_request_ignored (s0 : AppWindow) (evs : List Event)
    (hinv : SaveGateInv s0)
    (hsaving : (run s0 evs).isSavingDocument = true) :
    step (run s0 evs) .actSave = (run s0 evs, []) := by
  have hsave := (saveGateInv_run s0 evs hinv hsaving).1
  simp [step, hsave]

/-- Witness for the amended C3 on a concrete in-flight run. -/
theorem second_save_request_ignored_witness :
    SaveGateInv sampleWindow ∧
    (run sampleWindow [.actSave]).isSavingDocument = true ∧
    step (run sampleWindow [.actSave]) .actSave = (run sampleWindow [.actSave], []) :=
  ⟨by decide, by decide,
   second_save_request_ignored sampleWindow [.actSave] (by decide) (by decide)⟩

/-! ## Snapshot semantics of the save -/

/-- Counterexample to claim C1 as stated: the worker is handed no snapshot —
it reads the live Document when it writes.  From the same request-time state,
a run in which the user changes the selection during the save (which
re-enables the rotate actions through `onSelectedPagesChanged`) and rotates a
page produces different bytes than the run without the mid-flight edit, so
the bytes written are not a function of the Document state at request time. -/
theorem save_snapshot_cex :
    writesOf (runOutputs sampleWindow
        [.actSave, .selectionChanged [0], .actRotateRight, .saveCompletes true])
      ≠ [serialize sampleWindow.document] ∧
    writesOf (runOutputs sampleWindow [.actSave, .saveCompletes true])
      = [serialize sampleWindow.document] := by
  decide

/-- A successful completion while a save is in flight writes exactly the
serialization of the document as it stands at completion time. -/
theorem step_saveCompletes_true (s : AppWindow) (h : s.isSavingDocument = true) :
    step s (.saveCompletes true)
      = (enableEditingActions { s with isSavingDocument := false },
         [.wroteFile (serialize s.document), .dispatcherSignal .saved]) := by
  simp [step, h]

/-- Claim C1, amended: the bytes written by a save are the serialization of
the Document as it stands when the worker performs the write (completion
time), not of a request-time snapshot; whenever no edit changes the Document
between the save request and its completion, they coincide with the
serialization of the request-time state. -/
theorem save_writes_live_document (s : AppWindow) (evs : List Event)
    (hdoc : (run (step s .actSave).1 evs).document = s.document)
    (hsaving : (run (step s .actSave).1 evs).isSavingDocument = true) :
    writesOf (step (run (step s .actSave).1 evs) (.saveCompletes true)).2
      = [serialize s.document] := by
  rw [step_saveCompletes_true _ hsaving]
  simp [writesOf, hdoc]

/-- Witness for the amended C1: an undisturbed save over `sampleWindow`. -/
theorem save_writes_live_document_witness :
    (run (step sampleWindow .actSave).1 []).document = sampleWindow.document ∧
    (run (step sampleWindow .actSave).1 []).isSavingDocument = true ∧
    writesOf (step (run (step sampleWindow .actSave).1 []) (.saveCompletes true)).2
      = [serialize sampleWindow.document] :=
  ⟨by decide, by decide,
   save_writes_live_document sampleWindow [] (by decide) (by decide)⟩

/-! ## Terminal signals -/

/-- Claim C4: while a save is in flight, its completion delivers exactly one
terminal signal — `saved` on success, `savingFailed` on failure (the worker
body's catch-all turns every exception into the failure signal) — marshaled
through a `Glib::Dispatcher` (the `dispatcherSignal` output); no event ever
raises a fault on the controlling context's call stack, and no event other
than a completion delivers a terminal signal. -/
theorem save_terminal_signal (s : AppWindow) (ok : Bool)
    (h : s.isSavingDocument = true) :
    signalsOf (step s (.saveCompletes ok)).2
      = [if ok then TermSignal.saved else TermSignal.savingFailed] ∧
    (∀ e : Event, Output.raisedFault ∉ (step s e).2) ∧
    (∀ e : Event, (∀ k, e ≠ .saveCompletes k) → signalsOf (step s e).2 = []) := by
  refine ⟨by cases ok <;> simp [step, h, signalsOf], ?_, ?_⟩
  · intro e
    cases e with
    | actSave => by_cases hs : s.actions.saveAction <;> simp [step, hs]
    | saveCompletes k => cases k <;> simp [step, h]
    | actOpen r =>
      by_cases ho : s.actions.openAction <;>
        cases r <;> simp [step, ho, tryOpenDocument, setDocument]
    | selectionChanged sel => simp [step]
    | actCancelSelection =>
      by_cases ha : s.actions.cancelSelectionAction <;> simp [step, ha]
    | actRemoveSelected =>
      by_cases ha : s.actions.removeSelectedAction <;> simp [step, ha, editStep_snd]
    | actRemoveUnselected =>
      by_cases ha : s.actions.removeUnselectedAction <;> simp [step, ha, editStep_snd]
    | actRemovePrevious =>
      by_cases ha : s.actions.removePreviousAction <;> simp [step, ha, editStep_snd]
    | actRemoveNext =>
      by_cases ha : s.actions.removeNextAction <;> simp [step, ha, editStep_snd]
    | actRotateRight =>
      by_cases ha : s.actions.rotateRightAction <;> simp [step, ha, editStep_snd]
    | actRotateLeft =>
      by_cases ha : s.actions.rotateLeftAction <;> simp [step, ha, editStep_snd]
    | actUndo =>
      by_cases ha : s.actions.undoAction <;> simp [step, ha, editStep_snd]
    | actRedo =>
      by_cases ha : s.actions.redoAction <;> simp [step, ha, editStep_snd]
  · intro e hne
    cases e with
    | actSave => by_cases hs : s.actions.saveAction <;> simp [step, hs, signalsOf]
    | saveCompletes k => exact absurd rfl (hne k)
    | actOpen r =>
      by_cases ho : s.actions.openAction <;>
        cases r <;> simp [step, ho, tryOpenDocument, setDocument, signalsOf]
    | selectionChanged sel => simp [step, signalsOf]
    | actCancelSelection =>
      by_cases ha : s.actions.cancelSelectionAction <;> simp [step, ha, signalsOf]
    | actRemoveSelected =>
      by_cases ha : s.actions.removeSelectedAction <;>
        simp [step, ha, editStep_snd, signalsOf]
    | actRemoveUnselected =>
      by_cases ha : s.actions.removeUnselectedAction <;>
        simp [step, ha, editStep_snd, signalsOf]
    | actRemovePrevious =>
      by_cases ha : s.actions.removePreviousAction <;>
        simp [step, ha, editStep_snd, signalsOf]
    | actRemoveNext =>
      by_cases ha : s.actions.removeNextAction <;>
        simp [step, ha, editStep_snd, signalsOf]
    | actRotateRight =>
      by_cases ha : s.actions.rotateRightAction <;>
        simp [step, ha, editStep_snd, signalsOf]
    | actRotateLeft =>
      by_cases ha : s.actions.rotateLeftAction <;>
        simp [step, ha, editStep_snd, signalsOf]
    | actUndo =>
      by_cases ha : s.actions.undoAction <;> simp [step, ha, editStep_snd, signalsOf]
    | actRedo =>
      by_cases ha : s.actions.redoAction <;> simp [step, ha, editStep_snd, signalsOf]

/-- Witness for C4 on a concrete in-flight state. -/
theorem save_terminal_signal_witness :
    (run sampleWindow [.actSave]).isSavingDocument = true ∧
    (signalsOf (step (run sampleWindow [.actSave]) (.saveCompletes false)).2
       = [if false then TermSignal.saved else TermSignal.savingFailed] ∧
     (∀ e : Event, Output.raisedFault ∉ (step (run sampleWindow [.actSave]) e).2) ∧
     (∀ e : Event, (∀ k, e ≠ .saveCompletes k) →
        signalsOf (step (run sampleWindow [.actSave]) e).2 = [])) :=
  ⟨by decide, save_terminal_signal (run sampleWindow [.actSave]) false (by decide)⟩

/-! ## The save phase state machine -/

/-- The `enableEditingActions` pipeline — open/save enabled, then
`onSelectedPagesChanged`, then `onCommandExecuted` — produces exactly the
enablement described pointwise by `fullEnablement`, for any starting
enablement. -/
theorem enableEditingActions_eq (sel : List Nat) (doc : Document) (a : Actions) :
    historyActions doc (selectionActions sel doc.pages.length
        { a with openAction := true, saveAction := true })
      = fullEnablement sel doc := by
  rcases sel with _ | ⟨i, t⟩
  · simp [selectionActions, historyActions, fullEnablement]
  · rcases t with _ | ⟨j, u⟩
    · by_cases h0 : (i : Int) = 0
      · by_cases hl : (0 : Int) = (doc.pages.length : Int) - 1 <;>
          simp [selectionActions, historyActions, fullEnablement, h0, hl]
      · by_cases hl : (i : Int) = (doc.pages.length : Int) - 1
        · have h0l : ¬((doc.pages.length : Int) - 1 = 0) := hl ▸ h0
          simp [selectionActions, historyActions, fullEnablement, h0, hl, h0l]
        · simp [selectionActions, historyActions, fullEnablement, h0, hl]
    · have h2 : 1 < u.length + 2 := by omega
      have h1 : ¬(u.length + 2 = 1) := by omega
      simp [selectionActions, historyActions, fullEnablement, h2, h1]

/-- Claim C5: the save coordinator follows `idle → saving → idle`: a save
request moves the phase to `saving` and disables all editing actions; after
the terminal signal (success or failure) the phase is `idle` again and the
actions disabled for the save are re-enabled (open and save outright, the
rest per the current selection and history). -/
theorem save_phase_machine (s : AppWindow) (ok : Bool)
    (hsave : s.actions.saveAction = true) :
    phaseOf (step s .actSave).1 = .saving ∧
    (step s .actSave).1.actions = Actions.allOff ∧
    phaseOf (step (step s .actSave).1 (.saveCompletes ok)).1 = .idle ∧
    (step (step s .actSave).1 (.saveCompletes ok)).1.actions
      = fullEnablement s.selection s.document := by
  have h1 : (step s .actSave).1
      = { s with actions := Actions.allOff, isSavingDocument := true } := by
    simp [step, hsave, disableEditingActions]
  have h2 : (step (step s .actSave).1 (.saveCompletes ok)).1
      = enableEditingActions
          { s with actions := Actions.allOff, isSavingDocument := false } := by
    rw [h1]
    cases ok <;> simp [step]
  refine ⟨by rw [h1]; rfl, by rw [h1], ?_, ?_⟩
  · rw [h2]
    rfl
  · rw [h2]
    show historyActions s.document (selectionActions s.selection s.document.pages.length
        { Actions.allOff with openAction := true, saveAction := true })
      = fullEnablement s.selection s.document
    exact enableEditingActions_eq s.selection s.document Actions.allOff

/-- Witness for C5 at `sampleWindow`. -/
theorem save_phase_machine_witness :
    sampleWindow.actions.saveAction = true ∧
    (phaseOf (step sampleWindow .actSave).1 = .saving ∧
     (step sampleWindow .actSave).1.actions = Actions.allOff ∧
     phaseOf (step (step sampleWindow .actSave).1 (.saveCompletes true)).1 = .idle ∧
     (step (step sampleWindow .actSave).1 (.saveCompletes true)).1.actions
       = fullEnablement sampleWindow.selection sampleWindow.document) :=
  ⟨by decide, save_phase_machine sampleWindow true (by decide)⟩

/-! ## Range safety of remove-previous / remove-next -/

theorem rangeList_length (first last : Int) (h : ¬last < first) :
    (rangeList first last).length = (last - first + 1).toNat := by
  unfold rangeList
  rw [if_neg h]
  simp

theorem rangeList_ne_nil {first last : Int} (h : first ≤ last) :
    rangeList first last ≠ [] := by
  intro hcon
  have hlen := rangeList_length first last (by omega)
  rw [hcon] at hlen
  simp at hlen
  omega

theorem mem_rangeList {first last : Int} {j : Nat} (hj : j ∈ rangeList first last) :
    first ≤ (j : Int) ∨ first < 0 := by
  unfold rangeList at hj
  by_cases hc : last < first
  · rw [if_pos hc] at hj
    simp at hj
  · rw [if_neg hc] at hj
    rcases List.mem_map.mp hj with ⟨k, _, rfl⟩
    omega

theorem mem_rangeList_le {first last : Int} {j : Nat} (hf : 0 ≤ first)
    (hj : j ∈ rangeList first last) : first ≤ (j : Int) ∧ (j : Int) ≤ last := by
  unfold rangeList at hj
  by_cases hc : last < first
  · rw [if_pos hc] at hj
    simp at hj
  · rw [if_neg hc] at hj
    rcases List.mem_map.mp hj with ⟨k, hk, rfl⟩
    rw [List.mem_range] at hk
    constructor <;> omega

theorem selectionActions_removePrevious (sel : List Nat) (n : Nat) (acts : Actions) :
    (selectionActions sel n acts).removePreviousAction
      = (decide (sel.length = 1) && !(decide ((sel.headD 0 : Int) = 0))) := by
  rcases sel with _ | ⟨i, t⟩
  · simp [selectionActions]
  · rcases t with _ | ⟨j, u⟩
    · by_cases h0 : (i : Int) = 0
      · by_cases hl : (0 : Int) = (n : Int) - 1 <;> simp [selectionActions, h0, hl]
      · by_cases hl : (i : Int) = (n : Int) - 1
        · have h0l : ¬((n : Int) - 1 = 0) := hl ▸ h0
          simp [selectionActions, h0, hl, h0l]
        · simp [selectionActions, h0, hl]
    · have h2 : 1 < u.length + 2 := by omega
      have h1 : ¬(u.length + 2 = 1) := by omega
      simp [selectionActions, h2, h1]

theorem selectionActions_removeNext (sel : List Nat) (n : Nat) (acts : Actions) :
    (selectionActions sel n acts).removeNextAction
      = (decide (sel.length = 1) && !(decide ((sel.headD 0 : Int) = (n : Int) - 1))) := by
  rcases sel with _ | ⟨i, t⟩
  · simp [selectionActions]
  · rcases t with _ | ⟨j, u⟩
    · by_cases h0 : (i : Int) = 0
      · by_cases hl : (0 : Int) = (n : Int) - 1 <;> simp [selectionActions, h0, hl]
      · by_cases hl : (i : Int) = (n : Int) - 1
        · have h0l : ¬((n : Int) - 1 = 0) := hl ▸ h0
          simp [selectionActions, h0, hl, h0l]
        · simp [selectionActions, h0, hl]
    · have h2 : 1 < u.length + 2 := by omega
      have h1 : ¬(u.length + 2 = 1) := by omega
      simp [selectionActions, h2, h1]

/-- Claim C10: after `onSelectedPagesChanged`, the remove-previous action is
enabled only with exactly one selected page that is not the first, and the
remove-next action only with exactly one selected page that is not the last;
consequently the ranges `[0, index-1]` and `[index+1, pageCount-1]` that
`onRemovePreviousPages` / `onRemoveNextPages` pass to `removePageRange` are
non-empty and lie within `[0, pageCount)`. -/
theorem remove_range_actions_safe (sel : List Nat) (n : Nat) (acts : Actions)
    (hval : ∀ i ∈ sel, i < n) :
    ((selectionActions sel n acts).removePreviousAction = true →
      rangeList 0 ((sel.headD 0 : Int) - 1) ≠ [] ∧
      ∀ j ∈ rangeList 0 ((sel.headD 0 : Int) - 1), j < n) ∧
    ((selectionActions sel n acts).removeNextAction = true →
      rangeList ((sel.headD 0 : Int) + 1) ((n : Int) - 1) ≠ [] ∧
      ∀ j ∈ rangeList ((sel.headD 0 : Int) + 1) ((n : Int) - 1), j < n) := by
  constructor
  · intro hprev
    rw [selectionActions_removePrevious] at hprev
    simp only [Bool.and_eq_true, Bool.not_eq_eq_eq_not, Bool.not_true,
      decide_eq_true_eq, decide_eq_false_iff_not] at hprev
    obtain ⟨hlen, hi0⟩ := hprev
    rcases sel with _ | ⟨i, t⟩
    · simp at hlen
    · rcases t with _ | ⟨j, u⟩
      · simp only [List.headD_cons] at hi0 ⊢
        have hin : i < n := hval i (by simp)
        refine ⟨rangeList_ne_nil (by omega), ?_⟩
        intro j hj
        have := mem_rangeList_le (by omega) hj
        omega
      · simp at hlen
  · intro hnext
    rw [selectionActions_removeNext] at hnext
    simp only [Bool.and_eq_true, Bool.not_eq_eq_eq_not, Bool.not_true,
      decide_eq_true_eq, decide_eq_false_iff_not] at hnext
    obtain ⟨hlen, hil⟩ := hnext
    rcases sel with _ | ⟨i, t⟩
    · simp at hlen
    · rcases t with _ | ⟨j, u⟩
      · simp only [List.headD_cons] at hil ⊢
        have hin : i < n := hval i (by simp)
        refine ⟨rangeList_ne_nil (by omega), ?_⟩
        intro j hj
        have := mem_rangeList_le (by omega) hj
        omega
      · simp at hlen

/-- Witness for C10: three pages, page 1 selected — both actions are enabled
and both ranges are the singleton lists `[0]` and `[2]`. -/
theorem remove_range_actions_safe_witness :
    (∀ i ∈ [1], i < 3) ∧
    (selectionActions [1] 3 Actions.allOff).removePreviousAction = true ∧
    (rangeList 0 ((([1] : List Nat).headD 0 : Int) - 1) ≠ [] ∧
     ∀ j ∈ rangeList 0 ((([1] : List Nat).headD 0 : Int) - 1), j < 3) :=
  ⟨by decide, by decide,
   (remove_range_actions_safe [1] 3 Actions.allOff (by decide)).1 (by decide)⟩

end Slicer
